import Mathlib

/-
Verification of the resume-improver writer pipeline (extract.py): the
line-oriented section partitioner, the section formatter guard, the
document writer, the LLM-client fallback and the DOCX reader tool are
shallowly embedded below; the external LLM, client constructor and
document reader appear as explicit function parameters.
-/

namespace ResumeImprover

/-- ASCII whitespace predicate mirroring Python str.strip on the
whitespace characters that can occur here. -/
def isSpaceChar (c : Char) : Bool :=
  c = ' ' || c = '\t' || c = '\n' || c = '\r' || c = '\x0b' || c = '\x0c'

/-- Python line.strip(): drop whitespace from both ends. -/
def trimChars (s : String) : String :=
  String.mk (((s.toList.dropWhile isSpaceChar).reverse.dropWhile isSpaceChar).reverse)

/-- Helper for splitLines: accumulate the current line (reversed) while
scanning the character list. -/
def splitLinesAux : List Char → List Char → List String
  | [], acc => [String.mk acc.reverse]
  | c :: cs, acc =>
    if c = '\n' then String.mk acc.reverse :: splitLinesAux cs []
    else splitLinesAux cs (c :: acc)

/-- Python content.split(chr 10): split a string on newline characters. -/
def splitLines (s : String) : List String := splitLinesAux s.toList []

/-- Python newline join of a list of strings. -/
def joinLines : List String → String
  | [] => ""
  | [x] => x
  | x :: y :: xs => x ++ "\n" ++ joinLines (y :: xs)

/-- Python s[n:] on strings: drop the first n characters. -/
def strDrop (n : Nat) (s : String) : String := String.mk (s.toList.drop n)

/-- Character-list prefix test. -/
def isPrefixSeq : List Char → List Char → Bool
  | [], _ => true
  | _ :: _, [] => false
  | p :: ps, c :: cs => p = c && isPrefixSeq ps cs

/-- Python s.startswith(p). -/
def startsWithSeq (p s : String) : Bool := isPrefixSeq p.toList s.toList

/-- The duck-typed shape of a formatted section result in write_section:
the LLM reply content is either a single string or a list of strings. -/
inductive FormattedContent where
  | str (s : String)
  | list (l : List String)
deriving DecidableEq

/-- Paragraph style used by document.add_paragraph. -/
inductive ParaStyle where
  | normal
  | listBullet
deriving DecidableEq

/-- A paragraph of the output document: its text, its style, and whether
its run is bold with an explicit font size (the heading case). -/
structure Paragraph where
  text : String
  style : ParaStyle
  bold : Bool
  runSize : Option Nat
deriving DecidableEq

/-- The heading paragraph of write_section: an empty paragraph holding a
bold run of the title at 14pt. -/
def headingPara (title : String) : Paragraph := ⟨title, ParaStyle.normal, true, some 14⟩

/-- A plain body paragraph added by document.add_paragraph(text). -/
def plainPara (s : String) : Paragraph := ⟨s, ParaStyle.normal, false, none⟩

/-- A bullet paragraph added with the List Bullet style. -/
def bulletPara (s : String) : Paragraph := ⟨s, ParaStyle.listBullet, false, none⟩

/-- The blank spacer paragraph added after each section. -/
def spacerPara : Paragraph := ⟨"", ParaStyle.normal, false, none⟩

/-- The literal bullet-marker string tested by write_section. In the
source it is the three-character mojibake sequence of U+2022. -/
def bulletMarker : String := "â€¢"

/-- The section prompt template of _setup_prompts, with section_name and
content substituted as PromptTemplate.format does. -/
def section_prompt (section_name content : String) : String :=
  "\n            Format the following " ++ section_name ++
  " section content for a resume, ensuring it is:\n            1. Concise and impactful\n            2. Uses action verbs\n            3. Quantifies achievements where possible\n            4. Is ATS-friendly\n            5. Maintains professional tone\n\n            Content:\n            " ++
  content ++
  "\n\n            Return only the formatted content without any additional commentary.\n            "

/-- The formatter built from an external LLM invoke function (prompt in,
reply content out), as _format_section_content composes them. -/
def llmFormatter (llm : String → FormattedContent) (section_name content : String) :
    FormattedContent :=
  llm (section_prompt section_name content)

/-- ResumeWriter._format_section_content: if content is falsy (the empty
string) it is returned unchanged without invoking the LLM; otherwise the
formatter (the LLM call on the built prompt) runs once. The second
component counts LLM invocations. -/
def _format_section_content (formatter : String → String → FormattedContent)
    (section_name content : String) : FormattedContent × Nat :=
  if content = "" then (FormattedContent.str content, 0)
  else (formatter section_name content, 1)

/-- Fallible variant of _format_section_content: the source wraps the LLM
call in no try/except, so an inference-time failure propagates. -/
def _format_section_content_fallible
    (formatter : String → String → Except String FormattedContent)
    (section_name content : String) : Except String FormattedContent :=
  if content = "" then Except.ok (FormattedContent.str content)
  else formatter section_name content

/-- The per-line body of write_section's string branch: a non-blank line
starting with the bullet marker is appended as a List Bullet paragraph of
the line minus its first character re-trimmed; any other non-blank line
is appended as a plain paragraph of its trimmed text. -/
def add_line_para (doc : List Paragraph) (para : String) : List Paragraph :=
  if trimChars para ≠ "" then
    if startsWithSeq bulletMarker (trimChars para) then
      doc ++ [bulletPara (trimChars (strDrop 1 (trimChars para)))]
    else
      doc ++ [plainPara (trimChars para)]
  else doc

/-- ResumeWriter.write_section: format the content, append the bold
heading, append the body paragraphs according to the shape of the
formatted result, then append the spacer paragraph. -/
def write_section (formatter : String → String → FormattedContent)
    (doc : List Paragraph) (title content : String) : List Paragraph :=
  let formatted_content := (_format_section_content formatter title content).1
  let doc1 := doc ++ [headingPara title]
  let doc2 :=
    match formatted_content with
    | FormattedContent.str s => (splitLines s).foldl add_line_para doc1
    | FormattedContent.list items => doc1 ++ items.map (fun item => bulletPara item)
  doc2 ++ [spacerPara]

/-- The four fixed section buffers of format_resume. -/
structure Sections where
  profile : String
  experience : String
  education : String
  skills : String
deriving DecidableEq

/-- The fixed section names, in the dict insertion order of format_resume. -/
def sectionNames : List String :=
  ["Professional Profile", "Recent Experience", "Education", "Skills"]

/-- Read the buffer of a named section (dict lookup on the fixed keys). -/
def getSection (s : Sections) (name : String) : String :=
  if name = "Professional Profile" then s.profile
  else if name = "Recent Experience" then s.experience
  else if name = "Education" then s.education
  else if name = "Skills" then s.skills
  else ""

/-- Write the buffer of a named section (dict assignment on the fixed keys). -/
def setSection (s : Sections) (name v : String) : Sections :=
  if name = "Professional Profile" then { s with profile := v }
  else if name = "Recent Experience" then { s with experience := v }
  else if name = "Education" then { s with education := v }
  else if name = "Skills" then { s with skills := v }
  else s

/-- The loop state of format_resume's scan: the section buffers, the
current section (None initially) and the accumulated body lines. -/
structure PartState where
  sections : Sections
  current : Option String
  acc : List String

/-- The flush of format_resume: if a section is current and the
accumulator is non-empty, store the newline-join of the accumulator into
the current section. -/
def flushAcc (st : PartState) : Sections :=
  match st.current with
  | some c => if st.acc ≠ [] then setSection st.sections c (joinLines st.acc) else st.sections
  | none => st.sections

/-- One scan step on an already-trimmed line: a line equal to a section
name flushes and becomes current with an empty accumulator; a non-empty
line with a current section is appended to the accumulator; anything else
is ignored. -/
def partStepT (st : PartState) (line : String) : PartState :=
  if line ∈ sectionNames then
    ⟨flushAcc st, some line, []⟩
  else if line ≠ "" ∧ st.current.isSome then
    { st with acc := st.acc ++ [line] }
  else st

/-- One scan step of format_resume on a raw line: trim, then step. -/
def partLineStep (st : PartState) (rawLine : String) : PartState :=
  partStepT st (trimChars rawLine)

/-- The partitioning phase of format_resume (lines 223-246): scan the
lines of the content, then flush the trailing accumulator. -/
def partition_sections (content : String) : Sections :=
  let init : PartState := ⟨⟨"", "", "", ""⟩, none, []⟩
  flushAcc ((splitLines content).foldl partLineStep init)

/-- format_resume: partition the content, then write each section with a
non-empty buffer, in the fixed dict order, into an initially empty
document. -/
def format_resume (formatter : String → String → FormattedContent)
    (content : String) : List Paragraph :=
  let sections := partition_sections content
  sectionNames.foldl
    (fun doc name =>
      if getSection sections name ≠ "" then
        write_section formatter doc name (getSection sections name)
      else doc)
    []

/-- The LLM client, identified by its model name (the construction-time
temperature 0.2 plays no role in the claims). -/
structure Client where
  model_name : String
deriving DecidableEq

/-- get_llm: read the model name from the environment with default
gpt-4; if constructing the client for it fails, construct one for
gpt-3.5-turbo instead (and a failure of that construction propagates). -/
def get_llm (env : String → Option String) (mkClient : String → Except String Client) :
    Except String Client :=
  let model_name := (env "OPENAI_MODEL_NAME").getD "gpt-4"
  match mkClient model_name with
  | Except.ok c => Except.ok c
  | Except.error _ => mkClient "gpt-3.5-turbo"

/-- DocxReaderTool._run over the outcome of the external document read:
on failure return the descriptive error string; on success collect each
paragraph text whose trimmed form is non-blank, trimmed, joined with
newlines. -/
def docx_reader_tool_run (readResult : Except String (List String)) : String :=
  match readResult with
  | Except.error e => "Error reading DOCX file: " ++ e
  | Except.ok paras =>
    joinLines (paras.foldl
      (fun full_text p => if trimChars p ≠ "" then full_text ++ [trimChars p] else full_text)
      [])

/-- The identity stub formatter: returns the section content unchanged,
as a single string block, bypassing any LLM. -/
def identityFormatter : String → String → FormattedContent :=
  fun _ content => FormattedContent.str content

/-- A client constructor that fails for the primary gpt-4 model and
succeeds for anything else. -/
def mkFailPrimary : String → Except String Client :=
  fun m => if m = "gpt-4" then Except.error "unavailable" else Except.ok ⟨m⟩

/-- A client constructor that always succeeds. -/
def mkAlwaysOk : String → Except String Client := fun m => Except.ok ⟨m⟩

/-- The titles of the heading paragraphs of a document, in order: exactly
the paragraphs carrying the bold heading run. -/
def headingTitles (doc : List Paragraph) : List String :=
  (doc.filter (fun p => p.bold)).map (fun p => p.text)

/-- The body lines attributed to the section current at the start of a
line list: the non-empty lines before the next recognized heading. -/
def bodyAfter (v : List String) : List String :=
  (v.takeWhile (fun l => l ∉ sectionNames)).filter (fun l => l ≠ "")

/-- Specification-side attribution of lines to a section, over the
already-trimmed line list: the buffer finally stored for a section is the
body (bodyAfter: the non-empty lines up to the next recognized heading)
following the last occurrence of the section name whose body is
non-empty, because the scan flushes a segment only when its accumulator
is non-empty and a later flush overwrites an earlier one; a section with
no such occurrence keeps no lines. -/
def lastBody : List String → String → List String
  | [], _ => []
  | l :: ls, target =>
    if lastBody ls target ≠ [] then lastBody ls target
    else if l = target then bodyAfter ls
    else []

/- ===================== theorems ===================== -/

theorem isPrefixSeq_append_self (l t : List Char) : isPrefixSeq l (l ++ t) = true := by
  induction l with
  | nil => rfl
  | cons c cs ih => simp [isPrefixSeq, ih]

theorem docx_foldl_eq (paras : List String) (acc : List String) :
    paras.foldl
        (fun full_text p => if trimChars p ≠ "" then full_text ++ [trimChars p] else full_text)
        acc =
      acc ++ (paras.map trimChars).filter (fun t => t ≠ "") := by
  induction paras generalizing acc with
  | nil => simp
  | cons p ps ih =>
    rw [List.foldl_cons, ih]
    by_cases h : trimChars p = ""
    · simp [h]
    · simp [h, List.filter_cons, List.append_assoc]

theorem docx_error_prefix (e : String) :
    startsWithSeq "Error reading DOCX file:" ("Error reading DOCX file: " ++ e) = true := by
  have h1 : ("Error reading DOCX file: " ++ e).toList =
      "Error reading DOCX file: ".toList ++ e.toList := rfl
  have h2 : "Error reading DOCX file: ".toList =
      "Error reading DOCX file:".toList ++ [' '] := by decide
  rw [startsWithSeq, h1, h2, List.append_assoc]
  exact isPrefixSeq_append_self _ _

/-- C9: the DOCX-reading tool's run operation is total over the outcome
of the external read: a failure is converted into a descriptive error
string beginning with the fixed prefix, and a success yields the trimmed
non-blank paragraph texts joined with newlines. -/
theorem docx_reader_tool_run_spec :
    (∀ e, docx_reader_tool_run (Except.error e) = "Error reading DOCX file: " ++ e) ∧
    (∀ paras, docx_reader_tool_run (Except.ok paras) =
       joinLines ((paras.map trimChars).filter (fun t => t ≠ ""))) ∧
    (∀ e, startsWithSeq "Error reading DOCX file:"
       (docx_reader_tool_run (Except.error e)) = true) := by
  refine ⟨fun e => rfl, fun paras => ?_, fun e => docx_error_prefix e⟩
  simp only [docx_reader_tool_run]
  rw [docx_foldl_eq, List.nil_append]

/-- C8: get_llm falls back to a gpt-3.5-turbo client exactly when
constructing the client for the environment-configured primary model
fails, returns the primary client when construction succeeds, and an
inference-time failure in _format_section_content propagates uncaught. -/
theorem get_llm_fallback_spec
    (env : String → Option String) (mkClient : String → Except String Client) :
    (∀ e, mkClient ((env "OPENAI_MODEL_NAME").getD "gpt-4") = Except.error e →
       get_llm env mkClient = mkClient "gpt-3.5-turbo") ∧
    (∀ c, mkClient ((env "OPENAI_MODEL_NAME").getD "gpt-4") = Except.ok c →
       get_llm env mkClient = Except.ok c) ∧
    (∀ (formatter : String → String → Except String FormattedContent) name content e,
       content ≠ "" → formatter name content = Except.error e →
       _format_section_content_fallible formatter name content = Except.error e) := by
  refine ⟨?_, ?_, ?_⟩
  · intro e he; simp [get_llm, he]
  · intro c hc; simp [get_llm, hc]
  · intro formatter name content e hc herr
    simp [_format_section_content_fallible, hc, herr]

theorem get_llm_fallback_spec_witness :
    get_llm (fun _ => none) mkFailPrimary = mkFailPrimary "gpt-3.5-turbo" ∧
    get_llm (fun _ => none) mkAlwaysOk = Except.ok ⟨"gpt-4"⟩ ∧
    _format_section_content_fallible (fun _ _ => Except.error "down") "Skills" "x" =
      Except.error "down" :=
  ⟨(get_llm_fallback_spec (fun _ => none) mkFailPrimary).1 "unavailable" rfl,
   (get_llm_fallback_spec (fun _ => none) mkAlwaysOk).2.1 ⟨"gpt-4"⟩ rfl,
   (get_llm_fallback_spec (fun _ => none) mkAlwaysOk).2.2 (fun _ _ => Except.error "down")
     "Skills" "x" "down" (by decide) rfl⟩

/-- C3 counterexample: a whitespace-only (blank but non-empty) content is
not passed through unchanged; the LLM formatter is invoked once on it. -/
theorem format_section_blank_counterexample :
    _format_section_content (fun _ _ => FormattedContent.str "X") "Skills" " " =
      (FormattedContent.str "X", 1) ∧
    ¬ (_format_section_content (fun _ _ => FormattedContent.str "X") "Skills" " ").2 = 0 := by
  decide

/-- C3 amended: _format_section_content passes content through unchanged
with zero LLM invocations exactly when the content is the empty string;
any non-empty content, whitespace-only included, triggers one LLM call. -/
theorem format_section_empty_passthrough
    (formatter : String → String → FormattedContent) (section_name : String) :
    _format_section_content formatter section_name "" = (FormattedContent.str "", 0) ∧
    ∀ content, content ≠ "" →
      _format_section_content formatter section_name content =
        (formatter section_name content, 1) := by
  refine ⟨rfl, ?_⟩
  intro content hc
  simp [_format_section_content, hc]

theorem format_section_empty_passthrough_witness :
    _format_section_content (fun _ _ => FormattedContent.str "X") "Skills" "" =
      (FormattedContent.str "", 0) ∧
    _format_section_content (fun _ _ => FormattedContent.str "X") "Skills" "body" =
      (FormattedContent.str "X", 1) :=
  ⟨(format_section_empty_passthrough (fun _ _ => FormattedContent.str "X") "Skills").1,
   (format_section_empty_passthrough (fun _ _ => FormattedContent.str "X") "Skills").2 "body"
     (by decide)⟩

/-- C1 counterexample: for content whose formatted result is blank (here
the empty content, passed through as the empty string), write_section
still appends the heading paragraph and the spacer paragraph. -/
theorem write_section_blank_counterexample :
    write_section (fun _ _ => FormattedContent.str "ignored") [] "Skills" "" =
      [headingPara "Skills", spacerPara] := by
  decide

/-- C2: evaluation at the failing input. The bullet marker in the source
is the three-character mojibake sequence of U+2022, yet only the first
character is stripped, so the bullet paragraph text keeps the two
trailing marker characters instead of being the line with the marker
stripped. -/
theorem write_section_mojibake_bullet_eval :
    write_section (fun _ _ => FormattedContent.str "â€¢ Python") [] "Skills" "x" =
      [headingPara "Skills", bulletPara "€¢ Python", spacerPara] := by
  decide

/-- C4: on the concrete four-line input, the partitioner fills exactly
the Professional Profile and Skills buffers, and with the identity stub
formatter the output document is exactly two headed sections, each a bold
heading, one plain paragraph and one blank spacer, in canonical order. -/
theorem end_to_end_example :
    partition_sections "Professional Profile\nSenior Engineer, 10 years\nSkills\nPython, Go" =
      ⟨"Senior Engineer, 10 years", "", "", "Python, Go"⟩ ∧
    format_resume identityFormatter
        "Professional Profile\nSenior Engineer, 10 years\nSkills\nPython, Go" =
      [headingPara "Professional Profile", plainPara "Senior Engineer, 10 years", spacerPara,
       headingPara "Skills", plainPara "Python, Go", spacerPara] := by
  decide

theorem trimChars_eq_empty_of_all_space {s : String}
    (h : ∀ c ∈ s.toList, isSpaceChar c) : trimChars s = "" := by
  unfold trimChars
  have h1 : s.toList.dropWhile isSpaceChar = [] :=
    List.dropWhile_eq_nil_iff.2 (fun c hc => h c hc)
  rw [h1]
  rfl

theorem all_space_of_trimChars_eq_empty {s : String}
    (h : trimChars s = "") : ∀ c ∈ s.toList, isSpaceChar c := by
  unfold trimChars at h
  have h0 : ((s.toList.dropWhile isSpaceChar).reverse.dropWhile isSpaceChar).reverse = [] := by
    have := congrArg String.toList h
    simpa using this
  have h1 : ∀ c ∈ s.toList.dropWhile isSpaceChar, isSpaceChar c := by
    intro c hc
    have h2 : (s.toList.dropWhile isSpaceChar).reverse.dropWhile isSpaceChar = [] :=
      List.reverse_eq_nil_iff.1 h0
    have h3 := List.dropWhile_eq_nil_iff.1 h2
    exact h3 c (List.mem_reverse.2 hc)
  intro c hc
  rw [← List.takeWhile_append_dropWhile (p := isSpaceChar) (l := s.toList)] at hc
  rcases List.mem_append.1 hc with hc | hc
  · exact List.mem_takeWhile_imp hc
  · exact h1 c hc

theorem splitLinesAux_chars :
    ∀ (cs acc : List Char) (line : String), line ∈ splitLinesAux cs acc →
      ∀ c ∈ line.toList, c ∈ acc.reverse ++ cs := by
  intro cs
  induction cs with
  | nil =>
    intro acc line hline c hc
    simp only [splitLinesAux, List.mem_singleton] at hline
    subst hline
    simpa using hc
  | cons ch cs ih =>
    intro acc line hline c hc
    rw [splitLinesAux] at hline
    by_cases h : ch = '\n'
    · rw [if_pos h] at hline
      rcases List.mem_cons.1 hline with hline | hline
      · subst hline
        have : c ∈ acc.reverse := by simpa using hc
        exact List.mem_append.2 (Or.inl this)
      · have := ih [] line hline c hc
        simp only [List.reverse_nil, List.nil_append] at this
        exact List.mem_append.2 (Or.inr (List.mem_cons.2 (Or.inr this)))
    · rw [if_neg h] at hline
      have := ih (ch :: acc) line hline c hc
      simp only [List.reverse_cons] at this
      rcases List.mem_append.1 this with h2 | h2
      · rcases List.mem_append.1 h2 with h3 | h3
        · exact List.mem_append.2 (Or.inl h3)
        · simp only [List.mem_singleton] at h3
          subst h3
          exact List.mem_append.2 (Or.inr (List.mem_cons.2 (Or.inl rfl)))
      · exact List.mem_append.2 (Or.inr (List.mem_cons.2 (Or.inr h2)))

theorem splitLines_all_space {s : String} (h : ∀ c ∈ s.toList, isSpaceChar c) :
    ∀ line ∈ splitLines s, trimChars line = "" := by
  intro line hline
  apply trimChars_eq_empty_of_all_space
  intro c hc
  have := splitLinesAux_chars s.toList [] line hline c hc
  simpa using h c (by simpa using this)

theorem foldl_add_line_para_blank (ls : List String) (doc : List Paragraph)
    (h : ∀ l ∈ ls, trimChars l = "") :
    ls.foldl add_line_para doc = doc := by
  induction ls generalizing doc with
  | nil => rfl
  | cons l ls ih =>
    have h0 : trimChars l = "" := h l (by simp)
    rw [List.foldl_cons]
    have hstep : add_line_para doc l = doc := by
      unfold add_line_para
      rw [if_neg (by simp [h0])]
    rw [hstep]
    exact ih doc (fun x hx => h x (by simp [hx]))

/-- C1 amended: when the formatted result of a section is a string that
is blank after trimming, write_section appends no body paragraph, but it
still appends the heading paragraph and the spacer paragraph (the blank
section is skipped only by format_resume, which never calls
write_section on an empty buffer). -/
theorem write_section_blank_formatted
    (formatter : String → String → FormattedContent) (doc : List Paragraph)
    (title content s : String)
    (hfc : (_format_section_content formatter title content).1 = FormattedContent.str s)
    (hs : trimChars s = "") :
    write_section formatter doc title content = doc ++ [headingPara title, spacerPara] := by
  simp only [write_section]
  rw [hfc]
  dsimp only
  rw [foldl_add_line_para_blank _ _ (splitLines_all_space (all_space_of_trimChars_eq_empty hs))]
  simp

theorem write_section_blank_formatted_witness :
    write_section (fun _ _ => FormattedContent.str " ") [] "Skills" "x" =
      [headingPara "Skills", spacerPara] :=
  write_section_blank_formatted (fun _ _ => FormattedContent.str " ") [] "Skills" "x" " "
    (by decide) (by decide)

theorem headingTitles_nil : headingTitles [] = [] := rfl

theorem headingTitles_append (d₁ d₂ : List Paragraph) :
    headingTitles (d₁ ++ d₂) = headingTitles d₁ ++ headingTitles d₂ := by
  simp [headingTitles]

theorem headingTitles_add_line_para (ls : List String) (doc : List Paragraph) :
    headingTitles (ls.foldl add_line_para doc) = headingTitles doc := by
  induction ls generalizing doc with
  | nil => rfl
  | cons l ls ih =>
    rw [List.foldl_cons, ih]
    unfold add_line_para
    split
    · split
      · simp [headingTitles_append, headingTitles, bulletPara]
      · simp [headingTitles_append, headingTitles, plainPara]
    · rfl

theorem headingTitles_write_section
    (formatter : String → String → FormattedContent) (doc : List Paragraph)
    (title content : String) :
    headingTitles (write_section formatter doc title content) =
      headingTitles doc ++ [title] := by
  simp only [write_section]
  cases h : (_format_section_content formatter title content).1 with
  | str s =>
    dsimp only
    rw [headingTitles_append, headingTitles_add_line_para, headingTitles_append]
    simp [headingTitles, headingPara, spacerPara]
  | list items =>
    dsimp only
    rw [headingTitles_append, headingTitles_append, headingTitles_append]
    simp [headingTitles, headingPara, spacerPara, bulletPara, List.filter_map]

/-- C5: for every input and every formatter, the heading titles of the
output document are exactly the fixed canonical section-name order
restricted to the sections whose partitioned buffer is non-empty — never
the order the sections appeared in the input. -/
theorem format_resume_section_order
    (formatter : String → String → FormattedContent) (content : String) :
    headingTitles (format_resume formatter content) =
      sectionNames.filter
        (fun name => getSection (partition_sections content) name ≠ "") := by
  simp only [format_resume, sectionNames, List.foldl_cons, List.foldl_nil]
  by_cases h1 : getSection (partition_sections content) "Professional Profile" = "" <;>
    by_cases h2 : getSection (partition_sections content) "Recent Experience" = "" <;>
      by_cases h3 : getSection (partition_sections content) "Education" = "" <;>
        by_cases h4 : getSection (partition_sections content) "Skills" = "" <;>
          simp [h1, h2, h3, h4, headingTitles_write_section, headingTitles_nil, List.filter]

theorem foldl_no_heading (ls : List String) (st : PartState)
    (hcur : st.current = none) :
    (∀ l ∈ ls, trimChars l ∉ sectionNames) → ls.foldl partLineStep st = st := by
  induction ls with
  | nil => intro _; rfl
  | cons l ls ih =>
    intro h
    have hl : trimChars l ∉ sectionNames := h l (by simp)
    have hstep : partLineStep st l = st := by
      unfold partLineStep partStepT
      rw [if_neg hl, if_neg ?_]
      rintro ⟨-, hsome⟩
      rw [hcur] at hsome
      simp at hsome
    rw [List.foldl_cons, hstep]
    exact ih (fun x hx => h x (by simp [hx]))

/-- C6: an input none of whose trimmed lines equals a fixed section name
partitions to four empty sections; in particular everything before the
first recognized heading contributes nothing. -/
theorem partition_no_headings_empty (content : String)
    (h : ∀ line ∈ splitLines content, trimChars line ∉ sectionNames) :
    partition_sections content = ⟨"", "", "", ""⟩ := by
  unfold partition_sections
  dsimp only
  rw [foldl_no_heading _ _ rfl h]
  rfl

theorem partition_no_headings_empty_witness :
    partition_sections "Head of Engineering\nPython, Go\n\nNo headings here" =
      ⟨"", "", "", ""⟩ :=
  partition_no_headings_empty "Head of Engineering\nPython, Go\n\nNo headings here" (by decide)

theorem getSection_setSection_ne (s : Sections) (c v name : String) (h : c ≠ name) :
    getSection (setSection s c v) name = getSection s name := by
  unfold getSection setSection
  split_ifs <;> simp_all

theorem getSection_setSection_self (s : Sections) (name v : String)
    (h : name ∈ sectionNames) :
    getSection (setSection s name v) name = v := by
  simp only [sectionNames, List.mem_cons, List.not_mem_nil, or_false] at h
  rcases h with rfl | rfl | rfl | rfl <;> simp [getSection, setSection]

theorem flushAcc_preserves (st : PartState) (target : String)
    (h : st.current ≠ some target) :
    getSection (flushAcc st) target = getSection st.sections target := by
  unfold flushAcc
  cases hc : st.current with
  | none => rfl
  | some c =>
    have hne : c ≠ target := by
      rintro rfl
      exact h hc
    split_ifs with hacc
    · exact getSection_setSection_ne _ _ _ _ hne
    · rfl

theorem partStepT_heading (st : PartState) (line : String) (h : line ∈ sectionNames) :
    partStepT st line = ⟨flushAcc st, some line, []⟩ := by
  unfold partStepT
  rw [if_pos h]

theorem partStepT_accum (st : PartState) (line : String) (h1 : line ∉ sectionNames)
    (h2 : line ≠ "") (h3 : st.current.isSome = true) :
    partStepT st line = { st with acc := st.acc ++ [line] } := by
  unfold partStepT
  rw [if_neg h1, if_pos ⟨h2, h3⟩]

theorem partStepT_skip_empty (st : PartState) (line : String) (h1 : line ∉ sectionNames)
    (h2 : line = "") :
    partStepT st line = st := by
  unfold partStepT
  rw [if_neg h1, if_neg (by simp [h2])]

theorem partStepT_skip_nocurrent (st : PartState) (line : String) (h1 : line ∉ sectionNames)
    (h3 : st.current.isSome = false) :
    partStepT st line = st := by
  unfold partStepT
  rw [if_neg h1, if_neg (by simp [h3])]

theorem getSection_flush_self (secs : Sections) (target : String) (acc : List String)
    (hmem : target ∈ sectionNames) :
    getSection (flushAcc ⟨secs, some target, acc⟩) target =
      if acc ≠ [] then joinLines acc else getSection secs target := by
  unfold flushAcc
  dsimp only
  by_cases hacc : acc = []
  · subst hacc
    simp
  · rw [if_pos hacc, if_pos hacc, getSection_setSection_self _ _ _ hmem]

theorem foldl_partStepT_preserves (zs : List String) (st : PartState) (target : String)
    (hcur : st.current ≠ some target) (hz : target ∉ zs) :
    getSection (flushAcc (zs.foldl partStepT st)) target = getSection st.sections target := by
  induction zs generalizing st with
  | nil => exact flushAcc_preserves st target hcur
  | cons z zs ih =>
    have hzne : z ≠ target := by
      rintro rfl
      exact hz (by simp)
    have hz' : target ∉ zs := fun hm => hz (by simp [hm])
    rw [List.foldl_cons]
    by_cases h1 : z ∈ sectionNames
    · rw [partStepT_heading st z h1]
      rw [ih ⟨flushAcc st, some z, []⟩ (by simp [hzne]) hz']
      exact flushAcc_preserves st target hcur
    · by_cases he : z = ""
      · rw [partStepT_skip_empty st z h1 he]
        exact ih st hcur hz'
      · cases h3 : st.current.isSome with
        | false =>
          rw [partStepT_skip_nocurrent st z h1 h3]
          exact ih st hcur hz'
        | true =>
          rw [partStepT_accum st z h1 he h3]
          rw [ih { st with acc := st.acc ++ [z] } hcur hz']

theorem foldl_partStepT_body (w : List String) (secs : Sections) (cur : String)
    (acc : List String)
    (hw : ∀ l ∈ w, l ∉ sectionNames) :
    w.foldl partStepT ⟨secs, some cur, acc⟩ =
      ⟨secs, some cur, acc ++ w.filter (fun l => l ≠ "")⟩ := by
  induction w generalizing acc with
  | nil => simp
  | cons l w ih =>
    have hl : l ∉ sectionNames := hw l (by simp)
    rw [List.foldl_cons]
    by_cases he : l = ""
    · rw [partStepT_skip_empty _ l hl he]
      rw [ih acc (fun x hx => hw x (by simp [hx]))]
      simp [he, List.filter_cons]
    · rw [partStepT_accum ⟨secs, some cur, acc⟩ l hl he rfl]
      dsimp only
      rw [ih (acc ++ [l]) (fun x hx => hw x (by simp [hx]))]
      simp [he, List.filter_cons, List.append_assoc]

theorem partition_tail_last (v : List String) (secs : Sections) (target : String)
    (acc : List String)
    (hmem : target ∈ sectionNames)
    (hv : target ∉ v) :
    getSection (flushAcc (v.foldl partStepT ⟨secs, some target, acc⟩)) target =
      if acc ++ bodyAfter v ≠ [] then joinLines (acc ++ bodyAfter v)
      else getSection secs target := by
  induction v generalizing secs acc with
  | nil =>
    rw [List.foldl_nil, getSection_flush_self _ _ _ hmem]
    simp [bodyAfter]
  | cons l v ih =>
    have hlne : l ≠ target := by
      rintro rfl
      exact hv (by simp)
    have hv' : target ∉ v := fun hm => hv (by simp [hm])
    rw [List.foldl_cons]
    by_cases h1 : l ∈ sectionNames
    · rw [partStepT_heading _ l h1]
      rw [foldl_partStepT_preserves v _ target (by simp [hlne]) hv']
      dsimp only
      rw [getSection_flush_self _ _ _ hmem]
      have hbody : bodyAfter (l :: v) = [] := by
        simp [bodyAfter, List.takeWhile_cons, h1]
      rw [hbody, List.append_nil]
    · by_cases he : l = ""
      · rw [partStepT_skip_empty _ l h1 he]
        rw [ih secs acc hv']
        have hbody : bodyAfter (l :: v) = bodyAfter v := by
          subst he
          have h0 : ("" : String) ∉ sectionNames := by decide
          simp [bodyAfter, List.takeWhile_cons, h0, List.filter_cons]
        rw [hbody]
      · rw [partStepT_accum ⟨secs, some target, acc⟩ l h1 he rfl]
        dsimp only
        rw [ih secs (acc ++ [l]) hv']
        have hbody : bodyAfter (l :: v) = l :: bodyAfter v := by
          simp [bodyAfter, List.takeWhile_cons, h1, List.filter_cons, he]
        rw [hbody]
        rw [if_pos (by simp), if_pos (by simp)]
        rw [List.append_assoc]
        rfl

/-- C10: when a recognized section name occurs more than once in the
input and its last occurrence is followed by non-empty body lines, the
partitioned content of that section is exactly the newline-join of the
non-empty trimmed lines between its last occurrence and the next
recognized heading — the later flush overwrites, rather than appends to,
the content stored from the earlier occurrence. -/
theorem partition_last_occurrence_overwrites (content target : String)
    (u v : List String)
    (hmem : target ∈ sectionNames)
    (hsplit : (splitLines content).map trimChars = u ++ target :: v)
    (hearlier : target ∈ u)
    (hlast : target ∉ v)
    (hbody : bodyAfter v ≠ []) :
    getSection (partition_sections content) target = joinLines (bodyAfter v) := by
  unfold partition_sections
  dsimp only
  have hfold : (splitLines content).foldl partLineStep ⟨⟨"", "", "", ""⟩, none, []⟩ =
      ((splitLines content).map trimChars).foldl partStepT ⟨⟨"", "", "", ""⟩, none, []⟩ := by
    rw [List.foldl_map]
    rfl
  rw [hfold, hsplit, List.foldl_append, List.foldl_cons]
  have hstep : partStepT (u.foldl partStepT ⟨⟨"", "", "", ""⟩, none, []⟩) target =
      ⟨flushAcc (u.foldl partStepT ⟨⟨"", "", "", ""⟩, none, []⟩), some target, []⟩ := by
    unfold partStepT
    rw [if_pos hmem]
  rw [hstep]
  rw [partition_tail_last v _ target [] hmem hlast]
  rw [List.nil_append, if_pos hbody]

theorem partition_last_occurrence_overwrites_witness :
    getSection (partition_sections "Skills\nJava\nSkills\nPython, Go") "Skills" =
      joinLines (bodyAfter ["Python, Go"]) :=
  partition_last_occurrence_overwrites "Skills\nJava\nSkills\nPython, Go" "Skills"
    ["Skills", "Java"] ["Python, Go"]
    (by decide) (by decide) (by decide) (by decide) (by decide)

theorem getSection_init (name : String) : getSection ⟨"", "", "", ""⟩ name = "" := by
  unfold getSection
  split_ifs <;> rfl

theorem getSection_flushAcc_eq (secs : Sections) (cur : Option String) (acc : List String)
    (target : String) (hmem : target ∈ sectionNames) :
    getSection (flushAcc ⟨secs, cur, acc⟩) target =
      if cur = some target ∧ acc ≠ [] then joinLines acc else getSection secs target := by
  unfold flushAcc
  cases cur with
  | none => simp
  | some c =>
    dsimp only
    by_cases hacc : acc = []
    · subst hacc
      simp
    · rw [if_pos hacc]
      by_cases hct : c = target
      · rw [hct, getSection_setSection_self secs target (joinLines acc) hmem,
          if_pos ⟨rfl, hacc⟩]
      · rw [getSection_setSection_ne secs c (joinLines acc) target hct,
          if_neg (by simp [hct])]

theorem bodyAfter_sublist (ls : List String) : (bodyAfter ls).Sublist ls :=
  (List.filter_sublist _).trans (List.takeWhile_prefix _).sublist

theorem lastBody_sublist (ls : List String) (target : String) :
    (lastBody ls target).Sublist ls := by
  induction ls with
  | nil => exact List.Sublist.refl []
  | cons l ls ih =>
    rw [lastBody]
    split_ifs with h1 h2
    · exact List.Sublist.cons l ih
    · exact List.Sublist.cons l (bodyAfter_sublist ls)
    · exact List.nil_sublist _

theorem lastBody_cons_ne (ls : List String) (target l : String) (h : l ≠ target) :
    lastBody (l :: ls) target = lastBody ls target := by
  rw [lastBody]
  by_cases h1 : lastBody ls target = []
  · rw [if_neg (by simp [h1]), if_neg h]
    exact h1.symm
  · rw [if_pos h1]

theorem partition_scan_exact (ls : List String) (target : String)
    (hmem : target ∈ sectionNames) :
    ∀ (secs : Sections) (cur : Option String) (acc : List String),
    getSection (flushAcc (ls.foldl partStepT ⟨secs, cur, acc⟩)) target =
      if lastBody ls target ≠ [] then joinLines (lastBody ls target)
      else if cur = some target ∧ acc ++ bodyAfter ls ≠ [] then joinLines (acc ++ bodyAfter ls)
      else getSection secs target := by
  induction ls with
  | nil =>
    intro secs cur acc
    rw [List.foldl_nil, getSection_flushAcc_eq secs cur acc target hmem]
    simp [lastBody, bodyAfter]
  | cons l ls ih =>
    intro secs cur acc
    rw [List.foldl_cons]
    by_cases h1 : l ∈ sectionNames
    · rw [partStepT_heading ⟨secs, cur, acc⟩ l h1]
      rw [ih (flushAcc ⟨secs, cur, acc⟩) (some l) []]
      rw [getSection_flushAcc_eq secs cur acc target hmem]
      have hb : bodyAfter (l :: ls) = [] := by
        simp [bodyAfter, List.takeWhile_cons, h1]
      rw [hb, List.append_nil, lastBody]
      by_cases hr : lastBody ls target = [] <;>
        by_cases hlt : l = target <;>
          by_cases hba : bodyAfter ls = [] <;>
            simp [hr, hlt, hba]
    · have hne : l ≠ target := fun he => h1 (by rw [he]; exact hmem)
      by_cases he : l = ""
      · rw [partStepT_skip_empty ⟨secs, cur, acc⟩ l h1 he]
        rw [ih secs cur acc, lastBody_cons_ne ls target l hne]
        have h0 : ("" : String) ∉ sectionNames := by decide
        have hb : bodyAfter (l :: ls) = bodyAfter ls := by
          simp [bodyAfter, List.takeWhile_cons, List.filter_cons, he, h0]
        rw [hb]
      · cases cur with
        | none =>
          rw [partStepT_skip_nocurrent ⟨secs, none, acc⟩ l h1 rfl]
          rw [ih secs none acc, lastBody_cons_ne ls target l hne]
          simp
        | some c =>
          rw [partStepT_accum ⟨secs, some c, acc⟩ l h1 he rfl]
          dsimp only
          rw [ih secs (some c) (acc ++ [l]), lastBody_cons_ne ls target l hne]
          have hb : bodyAfter (l :: ls) = l :: bodyAfter ls := by
            simp [bodyAfter, List.takeWhile_cons, h1, List.filter_cons, he]
          rw [hb]
          simp only [List.append_assoc, List.singleton_append]

/-- C7: for every input text and every recognized section name, the
partitioned content is the newline-join of exactly the lines the scan
attributes to that section (lastBody of the input's trimmed lines): every
attributed line appears, verbatim and exactly as often as attributed, in
its input position — no reordering, no dropping, no deduplication — and
that attributed-line list is a subsequence of the input's trimmed lines,
so the relative input order is preserved. -/
theorem partition_lines_exact (content target : String)
    (hmem : target ∈ sectionNames) :
    getSection (partition_sections content) target =
      joinLines (lastBody ((splitLines content).map trimChars) target) ∧
    (lastBody ((splitLines content).map trimChars) target).Sublist
      ((splitLines content).map trimChars) := by
  refine ⟨?_, lastBody_sublist _ _⟩
  unfold partition_sections
  dsimp only
  have hfold : (splitLines content).foldl partLineStep ⟨⟨"", "", "", ""⟩, none, []⟩ =
      ((splitLines content).map trimChars).foldl partStepT ⟨⟨"", "", "", ""⟩, none, []⟩ := by
    rw [List.foldl_map]
    rfl
  rw [hfold]
  rw [partition_scan_exact ((splitLines content).map trimChars) target hmem
    ⟨"", "", "", ""⟩ none []]
  by_cases hr : lastBody ((splitLines content).map trimChars) target = []
  · simp [hr, getSection_init, joinLines]
  · rw [if_pos hr]

theorem partition_lines_exact_witness :
    getSection (partition_sections "Intro\nProfessional Profile\nA\n\nB\nSkills\nC")
        "Professional Profile" =
      joinLines (lastBody
        ((splitLines "Intro\nProfessional Profile\nA\n\nB\nSkills\nC").map trimChars)
        "Professional Profile") ∧
    (lastBody ((splitLines "Intro\nProfessional Profile\nA\n\nB\nSkills\nC").map trimChars)
        "Professional Profile").Sublist
      ((splitLines "Intro\nProfessional Profile\nA\n\nB\nSkills\nC").map trimChars) :=
  partition_lines_exact "Intro\nProfessional Profile\nA\n\nB\nSkills\nC"
    "Professional Profile" (by decide)

end ResumeImprover
